import Mathlib

/-!
Verification development for the Wolfram Alpha fallback skill
(file src/__init__.py of the repository).

The Python module is embedded shallowly:
- the answer-text substitutions of process_wolfram_string become pure
  functions on lists of characters;
- the pod extraction (get_result with __find_pod_id / __find_num) becomes
  a pure function over an explicit response data type;
- the question-parser regexes become an executable backtracking matcher
  with Python's leftmost / greedy / first-alternative semantics;
- the fallback orchestrator (handle_fallback) becomes a function from an
  environment (host services, settings, API outcome) and the mutable
  skill state to an output record (return value, emitted event, spoken
  text, new state).  An uncaught Python exception escaping the handler is
  modelled by a distinguished result value.
-/

namespace WolframSkill

/-! ## Response cleaning: process_wolfram_string (src/__init__.py lines 242-263) -/

/-- Python whitespace class for the str pattern " \s+": space, tab,
newline, vertical tab, form feed, carriage return. -/
def isWs (c : Char) : Bool := c ∈ ([' ', '\t', '\n', '\x0b', '\x0c', '\r'] : List Char)

/-- Whether a character list starts with a whitespace character. -/
def headWs : List Char → Bool
  | [] => false
  | c :: _ => isWs c

/-- Scanner for re.sub(r" \s+", r" ", text): leftmost non-overlapping
matches of a space followed by a whitespace run collapse to one space.
The Bool flag is true while the scanner is consuming the whitespace run
of a match that already emitted its single replacement space. -/
def collapseAux : List Char → Bool → List Char
  | [], _ => []
  | c :: t, true => if isWs c then collapseAux t true else c :: collapseAux t false
  | c :: t, false =>
    if c = ' ' ∧ headWs t then ' ' :: collapseAux t true else c :: collapseAux t false

/-- First substitution of process_wolfram_string. -/
def collapse (l : List Char) : List Char := collapseAux l false

/-- re.sub(r" \| ", r", ", text): each " | " becomes ", ". -/
def pipeSub : List Char → List Char
  | [] => []
  | [c] => [c]
  | [c, d] => [c, d]
  | c :: d :: e :: t =>
    if c = ' ' ∧ d = '|' ∧ e = ' ' then ',' :: ' ' :: pipeSub t
    else c :: pipeSub (d :: e :: t)

/-- re.sub(r"\n", r", ", text): each newline becomes ", ". -/
def nlSub : List Char → List Char
  | [] => []
  | c :: t => if c = '\n' then ',' :: ' ' :: nlSub t else c :: nlSub t

/-- re.sub(r"!", r",factorial", text). -/
def bangSub : List Char → List Char
  | [] => []
  | c :: t => if c = '!' then ",factorial".data ++ bangSub t else c :: bangSub t

/-- The four substitution stages of process_wolfram_string, in source
order, before the language-specific list-pattern stage. -/
def process_wolfram_subs (s : String) : String :=
  ⟨bangSub (nlSub (pipeSub (collapse s.data)))⟩

/-- Modelled from the spec: the language-specific list-pattern stage of
process_wolfram_string reads a single-line regex (file regex/<lang>/list.rx,
not part of src/) with a named group Definition; when the cleaned text
matches, the text is replaced by that captured group.  The spec pins down
only that a regex capture is a contiguous substring of the matched text,
so the stage is modelled as any function with that property. -/
structure ListPattern where
  apply : String → Option String
  capture_infix : ∀ t d, apply t = some d → d.data <:+: t.data

/-- process_wolfram_string: the four substitutions followed by the
list-pattern stage. -/
def process_wolfram_string (lp : ListPattern) (text : String) : String :=
  match lp.apply (process_wolfram_subs text) with
  | some d => d
  | none => process_wolfram_subs text

/-- A list pattern that never matches (used to instantiate theorems at
concrete inputs). -/
def lpNone : ListPattern := ⟨fun _ => none, fun _ _ h => by cases h⟩

/-- A concrete list pattern meeting the capture-is-a-substring property
whose capture shrinks again when the pattern is re-applied to it. -/
def lpBad : ListPattern :=
  ⟨fun t => if t = "a, b, c" then some "a, b" else if t = "a, b" then some "a" else none,
   by
    intro t d h
    simp only at h
    split_ifs at h with h1 h2
    · injection h with h'
      rw [← h', h1]
      decide
    · injection h with h'
      rw [← h', h2]
      decide⟩

/-- Absence of the three characters the spec calls already-cleaned:
no pipe, no newline, no exclamation mark. -/
def noSpecials (s : String) : Prop := '|' ∉ s.data ∧ '\n' ∉ s.data ∧ '!' ∉ s.data

instance (s : String) : Decidable (noSpecials s) := by unfold noSpecials; infer_instance

/-- No position holds a space followed by a whitespace character, i.e.
the pattern " \s+" has no match. -/
def noCollapse : List Char → Bool
  | [] => true
  | [_] => true
  | c :: d :: t => !(c = ' ' && isWs d) && noCollapse (d :: t)

/-- Stability of a list pattern on its own captures: re-applying the
pattern to a captured group either does not match or returns it whole. -/
def lpStable (lp : ListPattern) : Prop :=
  ∀ t u, lp.apply t = some u → lp.apply u = none ∨ lp.apply u = some u

/-! ## Pod extraction: get_result (src/__init__.py lines 112-127, 225-240) -/

/-- A pod of the knowledge-API response: identifier, text, and the
position attribute (a numeric string in the wire format). -/
structure Pod where
  id : String
  text : String
  position : String
deriving DecidableEq

/-- The response object: the texts of the lazy primary-results sequence,
and the pod collection. -/
structure WAResponse where
  results : List String
  pods : List Pod
deriving DecidableEq

/-- WolframAlphaSkill.PIDS (src/__init__.py lines 85-86). -/
def PIDS : List String :=
  ["Value", "NotableFacts:PeopleData", "BasicInformation:PeopleData",
   "Definition", "DecimalApproximation"]

/-- WolframAlphaSkill.__find_pod_id: text of the first pod whose id
contains pod_id as a substring, else None. -/
def find_pod_id (pods : List Pod) (pod_id : String) : Option String :=
  match pods with
  | [] => none
  | pod :: rest =>
    if pod_id.data <:+: pod.id.data then some pod.text else find_pod_id rest pod_id

/-- WolframAlphaSkill.__find_num: text of the first pod whose position
attribute equals pod_num, else None. -/
def find_num (pods : List Pod) (pod_num : String) : Option String :=
  match pods with
  | [] => none
  | pod :: rest =>
    if pod.position = pod_num then some pod.text else find_num rest pod_num

/-- The PIDS loop of get_result: for each pid in order, look the pod up;
a falsy result (None or empty text, Python truthiness) moves on to the
next pid, a truthy one is returned (the caller truncates it). -/
def firstTruthyPid (pids : List String) (pods : List Pod) : Option String :=
  match pids with
  | [] => none
  | pid :: rest =>
    match find_pod_id pods pid with
    | some s => if s = "" then firstTruthyPid rest pods else some s
    | none => firstTruthyPid rest pods

/-- WolframAlphaSkill.get_result: the first primary result's text if the
sequence is non-empty; otherwise the first truthy PIDS match truncated
to its first 5 characters; otherwise the pod at position "200". -/
def get_result (res : WAResponse) : Option String :=
  match res.results with
  | t :: _ => some t
  | [] =>
    match firstTruthyPid PIDS res.pods with
    | some s => some (s.take 5)
    | none => find_num res.pods "200"

/-! ## EnglishQuestionParser (src/__init__.py lines 30-69)

The two patterns are embedded as executable backtracking matchers with
the semantics of Python's re.match: the match is anchored at the start
but need not reach the end; a dot never matches a newline; a greedy
star tries the longest extent first and backtracks one character at a
time; an alternation tries its branches in written order.  Each matcher
returns the named capture groups of the first (leftmost-greedy) match. -/

/-- Alternatives of the QuestionWord group of the first regex, in
pattern order: who|what|when|where|why|which|whose. -/
def regex1_words : List String := ["who", "what", "when", "where", "why", "which", "whose"]

/-- Alternatives of the QuestionVerb group of the first regex, in
pattern order: is|are|was|were. -/
def regex1_verbs : List String := ["is", "are", "was", "were"]

/-- Alternatives of the QuestionWord group of the second regex, in
pattern order: who|what|when|where|why|which|how. -/
def regex2_words : List String := ["who", "what", "when", "where", "why", "which", "how"]

/-- Python 2 str-pattern word character for the \w class:
ASCII letters, digits, underscore. -/
def isWordChar (c : Char) : Bool := c.isAlphanum || c = '_'

/-- One QuestionVerb alternative of regex 1, tried when Query1 ends at
position j: the verb and a space must follow, Query2 is the greedy
rest up to the first newline or the end. -/
def tryVerb1 (cs : List Char) (j : Nat) (v : String) : Option (String × String × String) :=
  if (v.data ++ [' ']).isPrefixOf ((cs.drop j).tail) then
    some (⟨cs.take j⟩, v,
      ⟨(((cs.drop j).tail).drop (v.data.length + 1)).takeWhile (fun c => c != '\n')⟩)
  else none

/-- Regex 1 with Query1 fixed to end at position j: Query1 must be
newline-free, a space must follow, then a QuestionVerb alternative in
pattern order. -/
def tryQ1 (cs : List Char) (j : Nat) : Option (String × String × String) :=
  if '\n' ∈ cs.take j then none
  else if (cs.drop j).head? = some ' ' then regex1_verbs.findSome? (tryVerb1 cs j)
  else none

/-- The part of regex 1 after "QuestionWord ": a greedy Query1 (any
characters but newline, longest first), a space, a QuestionVerb
alternative, a space, and a greedy Query2 running to the first newline
or the end.  Returns (Query1, QuestionVerb, Query2). -/
def matchMiddle (cs : List Char) : Option (String × String × String) :=
  (List.range (cs.length + 1)).reverse.findSome? (tryQ1 cs)

/-- One QuestionWord alternative of regex 1, tried at position i: the
word and a space must follow, then the middle part of the pattern. -/
def tryWordMid1 (cs : List Char) (i : Nat) (w : String) :
    Option (String × String × String × String) :=
  if (w.data ++ [' ']).isPrefixOf (cs.drop i) then
    (matchMiddle ((cs.drop i).drop (w.data.length + 1))).map fun x => (w, x.1, x.2.1, x.2.2)
  else none

/-- Regex 1 with the leading ".*" fixed to consume exactly i characters:
the prefix must be newline-free, then a QuestionWord alternative in
pattern order.  Returns (QuestionWord, Query1, QuestionVerb, Query2). -/
def tryWord1 (cs : List Char) (i : Nat) : Option (String × String × String × String) :=
  if '\n' ∈ cs.take i then none
  else regex1_words.findSome? (tryWordMid1 cs i)

/-- The first regex of EnglishQuestionParser:
".*(QuestionWord) (Query1) (QuestionVerb) (Query2)". -/
def match1 (cs : List Char) : Option (String × String × String × String) :=
  (List.range (cs.length + 1)).reverse.findSome? (tryWord1 cs)

/-- The part of regex 2 after "QuestionWord ": a greedy "\w+" verb
(longest first), a space, and a greedy Query running to the first
newline or the end.  Returns (QuestionVerb, Query). -/
def matchTail2 (cs : List Char) : Option (String × String) :=
  (List.range (cs.takeWhile isWordChar).length).reverse.findSome? fun k =>
    if (cs.drop (k + 1)).head? = some ' ' then
      some (⟨cs.take (k + 1)⟩, ⟨((cs.drop (k + 1)).tail).takeWhile (fun c => c != '\n')⟩)
    else none

/-- The second regex of EnglishQuestionParser:
".*(QuestionWord) (QuestionVerb=\w+) (Query)". -/
def match2 (cs : List Char) : Option (String × String × String) :=
  (List.range (cs.length + 1)).reverse.findSome? fun i =>
    if '\n' ∈ cs.take i then none
    else regex2_words.findSome? fun w =>
      if (w.data ++ [' ']).isPrefixOf (cs.drop i) then
        (matchTail2 ((cs.drop i).drop (w.data.length + 1))).map fun x => (w, x.1, x.2)
      else none

/-- The normalized parse result of EnglishQuestionParser._normalize:
question word, question verb, and a single query field. -/
structure ParsedQuestion where
  questionWord : String
  questionVerb : String
  query : String
deriving DecidableEq

/-- EnglishQuestionParser.parse composed with _normalize: the regexes
are tried in order and the first match wins; a regex-1 match joins
Query1 and Query2 with a space into the query field; a regex-2 match
keeps its Query group; no match gives None. -/
def parse (utterance : String) : Option ParsedQuestion :=
  match match1 utterance.data with
  | some x => some ⟨x.1, x.2.2.1, x.2.1 ++ " " ++ x.2.2.2⟩
  | none =>
    match match2 utterance.data with
    | some x => some ⟨x.1, x.2.1, x.2.2⟩
    | none => none

/-! ## Fallback orchestrator: handle_fallback (src/__init__.py lines 129-223),
handle_get_sources (lines 265-275), skill state (lines 88-93) -/

/-- Outcome of the knowledge-API call self.client.query(query, params):
a parsed response, a requests.HTTPError with a status code, or any
other exception. -/
inductive QueryOutcome where
  | ok (res : WAResponse)
  | httpError (status : Nat)
  | exn
deriving DecidableEq

/-- The host-provided context of one handle_fallback invocation: the
utterance of the message, the host normalizer (mycroft.util.parse.normalize
with remove_articles=False), the skill settings and device configuration
read inside the handler, the language list pattern, and the behaviour of
the knowledge-API call.  The device coordinate is None when
config_core['location']['coordinate'] would raise. -/
structure FallbackEnv where
  utterance : String
  norm : String → String
  forward_location : Option String
  date_format : Option String
  system_unit : Option String
  coordinate : Option (String × String)
  listPattern : ListPattern
  api : String → List (String × String) → QueryOutcome

/-- The two instance fields set in WolframAlphaSkill.__init__ and
overwritten by a successful fallback handling. -/
structure SkillState where
  last_query : Option String
  last_answer : Option String
deriving DecidableEq

/-- What handle_fallback reports to the fallback dispatcher: True,
False, or an exception escaping the handler (no return value). -/
inductive HandleResult where
  | handled
  | notHandled
  | raised
deriving DecidableEq

/-- Observable outcome of one handle_fallback invocation: the reported
result, whether the mycroft.not.paired event was emitted, what was
spoken (None when nothing), and the skill state afterwards. -/
structure FallbackOutput where
  result : HandleResult
  emitted_not_paired : Bool
  spoken : Option String
  state : SkillState
deriving DecidableEq

/-- The params tuple built in handle_fallback (src/__init__.py lines
161-191): an optional latlong pair first (only when the
forward_location setting is the string "true"), then exactly one
date-order assumption, then exactly one units parameter.  None models
the lookup of a missing coordinate raising (caught by the generic
except clause of the handler). -/
def buildParams (forward_location : Option String) (coordinate : Option (String × String))
    (date_format system_unit : Option String) : Option (List (String × String)) :=
  let tail :=
    [("assumption",
      if date_format = some "MDY" then "DateOrder_**Month.Day.Year--"
      else "DateOrder_**Day.Month.Year--"),
     ("units", if system_unit = some "imperial" then "nonmetric" else "metric")]
  if forward_location = some "true" then
    match coordinate with
    | none => none
    | some (la, lo) => some (("latlong", la ++ "," ++ lo) :: tail)
  else some tail

/-- WolframAlphaSkill.handle_fallback.  The utterance is normalized and
parsed; a non-question returns False.  The query is rebuilt as
"word verb query" and sent with the assumption params.  An HTTPError
returns True, emitting mycroft.not.paired exactly for status 401; any
other exception during the call (or a failing coordinate lookup) is
logged and returns False.  A truthy extraction result is cleaned,
recorded in last_query/last_answer, spoken, and returns True.  A falsy
extraction result reaches the line "if len(others) > 0" whose name
others is undefined: a NameError escapes the handler (modelled as
HandleResult.raised). -/
def handle_fallback (env : FallbackEnv) (st : SkillState) : FallbackOutput :=
  match parse (env.norm env.utterance) with
  | none => ⟨.notHandled, false, none, st⟩
  | some pq =>
    let query := pq.questionWord ++ " " ++ pq.questionVerb ++ " " ++ pq.query
    match buildParams env.forward_location env.coordinate env.date_format env.system_unit with
    | none => ⟨.notHandled, false, none, st⟩
    | some params =>
      match env.api query params with
      | .httpError status => ⟨.handled, status == 401, none, st⟩
      | .exn => ⟨.notHandled, false, none, st⟩
      | .ok res =>
        match get_result res with
        | none => ⟨.raised, false, none, st⟩
        | some r =>
          if r = "" then ⟨.raised, false, none, st⟩
          else
            let response := process_wolfram_string env.listPattern r
            ⟨.handled, false, some response, ⟨some query, some response⟩⟩

/-- self.last_query.replace(" ", "+") of handle_get_sources. -/
def spacesToPlus (s : String) : String :=
  ⟨s.data.map fun c => if c = ' ' then '+' else c⟩

/-- Observable outcome of handle_get_sources: the data dict handed to
the email templates (query, answer, url_query) when an email is sent,
whether the sent.email dialog was spoken, and the state afterwards. -/
structure SourcesOutput where
  email_data : Option (String × Option String × String)
  spoke_confirmation : Bool
  state : SkillState
deriving DecidableEq

/-- WolframAlphaSkill.handle_get_sources: when last_query is truthy,
send an email rendered from the recorded query, the recorded answer
and the query with spaces replaced by plus signs, then speak the
confirmation dialog; otherwise do nothing.  The state is never
modified. -/
def handle_get_sources (st : SkillState) : SourcesOutput :=
  match st.last_query with
  | none => ⟨none, false, st⟩
  | some q =>
    if q = "" then ⟨none, false, st⟩
    else ⟨some (q, st.last_answer, spacesToPlus q), true, st⟩

/-- The reachable skill states: both fields are initialized to None in
__init__, and only handle_fallback and handle_get_sources touch the
instance afterwards. -/
inductive Reachable : SkillState → Prop where
  | init : Reachable ⟨none, none⟩
  | fallback (env : FallbackEnv) (st : SkillState) :
      Reachable st → Reachable (handle_fallback env st).state
  | sources (st : SkillState) :
      Reachable st → Reachable (handle_get_sources st).state

/-- An environment with default settings, identity normalization, a
never-matching list pattern, and a prescribed API behaviour. -/
def mkEnv (utt : String) (api : String → List (String × String) → QueryOutcome) : FallbackEnv :=
  ⟨utt, id, none, none, none, none, lpNone, api⟩

end WolframSkill

/-! ## Helper lemmas -/

namespace WolframSkill

theorem prefixOf_equiv (l1 l2 : List Char) : l1.isPrefixOf l2 = true ↔ l1 <+: l2 :=
  List.isPrefixOf_iff_prefix

theorem findSome?_isSome_of_mem {α β : Type} {l : List α} {f : α → Option β} {a : α} {b : β}
    (ha : a ∈ l) (h : f a = some b) : (l.findSome? f).isSome := by
  induction l with
  | nil => cases ha
  | cons x t ih =>
    rw [List.findSome?_cons]
    cases hx : f x with
    | some v => simp
    | none =>
      rcases List.mem_cons.mp ha with rfl | ht
      · rw [hx] at h; cases h
      · exact ih ht

theorem takeWhile_ne_eq_self {l : List Char} {c : Char} (h : c ∉ l) :
    l.takeWhile (fun x => x != c) = l := by
  induction l with
  | nil => rfl
  | cons x t ih =>
    simp only [List.mem_cons, not_or] at h
    simp [List.takeWhile_cons, bne_iff_ne, Ne.symm h.1, ih h.2]

theorem headWs_collapseAux_true (l : List Char) : headWs (collapseAux l true) = false := by
  induction l with
  | nil => rfl
  | cons c t ih =>
    by_cases hc : isWs c
    · simpa [collapseAux, hc] using ih
    · simp [collapseAux, hc, headWs]

theorem headWs_collapseAux_false (l : List Char) : headWs (collapseAux l false) = headWs l := by
  cases l with
  | nil => rfl
  | cons c t =>
    rw [collapseAux]
    by_cases hc : c = ' ' ∧ headWs t
    · rw [if_pos hc]
      show isWs ' ' = isWs c
      rw [hc.1]
    · rw [if_neg hc]
      rfl

theorem noCollapse_cons_of_headWs {l : List Char} (c : Char) (hl : headWs l = false)
    (h : noCollapse l = true) : noCollapse (c :: l) = true := by
  cases l with
  | nil => rfl
  | cons d t =>
    simp only [headWs] at hl
    simp [noCollapse, hl, h]

theorem noCollapse_cons_of_ne {l : List Char} {c : Char} (hc : c ≠ ' ')
    (h : noCollapse l = true) : noCollapse (c :: l) = true := by
  cases l with
  | nil => rfl
  | cons d t => simp [noCollapse, hc, h]

theorem noCollapse_collapseAux (l : List Char) :
    noCollapse (collapseAux l true) = true ∧ noCollapse (collapseAux l false) = true := by
  induction l with
  | nil => exact ⟨rfl, rfl⟩
  | cons c t ih =>
    constructor
    · by_cases hc : isWs c
      · simpa [collapseAux, hc] using ih.1
      · have hc' : c ≠ ' ' := fun h => hc (h ▸ rfl)
        simpa [collapseAux, hc] using noCollapse_cons_of_ne hc' ih.2
    · by_cases hc : c = ' ' ∧ headWs t
      · simpa [collapseAux, hc] using
          noCollapse_cons_of_headWs ' ' (headWs_collapseAux_true t) ih.1
      · rw [collapseAux, if_neg hc]
        rcases not_and_or.mp hc with hne | hhd
        · exact noCollapse_cons_of_ne hne ih.2
        · refine noCollapse_cons_of_headWs c ?_ ih.2
          rw [headWs_collapseAux_false]
          exact Bool.not_eq_true _ ▸ hhd

theorem noCollapse_collapse (l : List Char) : noCollapse (collapse l) = true :=
  (noCollapse_collapseAux l).2

theorem noCollapse_cons_iff {c d : Char} {t : List Char} :
    noCollapse (c :: d :: t) = true ↔ ¬(c = ' ' ∧ isWs d = true) ∧ noCollapse (d :: t) = true := by
  rw [noCollapse]
  rw [Bool.and_eq_true_iff, Bool.not_eq_true', Bool.and_eq_false_iff]
  constructor
  · rintro ⟨h1, h2⟩
    refine ⟨?_, h2⟩
    rintro ⟨rfl, hws⟩
    rcases h1 with h1 | h1
    · simp at h1
    · rw [h1] at hws; cases hws
  · rintro ⟨h1, h2⟩
    refine ⟨?_, h2⟩
    by_cases hc : c = ' '
    · right
      cases hws : isWs d
      · rfl
      · exact absurd ⟨hc, hws⟩ h1
    · left
      simpa using hc

theorem collapse_eq_self {l : List Char} (h : noCollapse l = true) : collapse l = l := by
  induction l with
  | nil => rfl
  | cons c t ih =>
    cases t with
    | nil =>
      show collapseAux [c] false = [c]
      rw [collapseAux, if_neg]
      · rfl
      · rintro ⟨-, hws⟩
        simp [headWs] at hws
    | cons d t' =>
      obtain ⟨h1, h2⟩ := noCollapse_cons_iff.mp h
      have hcond : ¬(c = ' ' ∧ headWs (d :: t') = true) := h1
      show collapseAux (c :: d :: t') false = c :: d :: t'
      rw [collapseAux, if_neg hcond]
      have := ih h2
      rw [collapse] at this
      rw [this]

theorem noCollapse_tail {c : Char} {l : List Char} (h : noCollapse (c :: l) = true) :
    noCollapse l = true := by
  cases l with
  | nil => rfl
  | cons d t => exact (noCollapse_cons_iff.mp h).2

theorem noCollapse_append_right {a b : List Char} (h : noCollapse (a ++ b) = true) :
    noCollapse b = true := by
  induction a with
  | nil => exact h
  | cons x a' ih => exact ih (noCollapse_tail h)

theorem noCollapse_append_left {a b : List Char} (h : noCollapse (a ++ b) = true) :
    noCollapse a = true := by
  induction a with
  | nil => rfl
  | cons x a' ih =>
    cases a' with
    | nil => rfl
    | cons y a'' =>
      simp only [List.cons_append, noCollapse, Bool.and_eq_true] at h ⊢
      exact ⟨h.1, ih h.2⟩

theorem noCollapse_infix_closed {d y : List Char} (hinf : d <:+: y)
    (h : noCollapse y = true) : noCollapse d = true := by
  rcases hinf with ⟨s, t, rfl⟩
  exact noCollapse_append_left (noCollapse_append_right (by rwa [List.append_assoc] at h))

theorem not_mem_collapseAux {c : Char} (hc : c ≠ ' ') :
    ∀ (l : List Char) (m : Bool), c ∉ l → c ∉ collapseAux l m := by
  intro l
  induction l with
  | nil => intro m _; simp [collapseAux]
  | cons a t ih =>
    intro m hmem
    simp only [List.mem_cons, not_or] at hmem
    cases m with
    | true =>
      by_cases ha : isWs a
      · simpa [collapseAux, ha] using ih true hmem.2
      · simp only [collapseAux, ha, Bool.false_eq_true, if_false, List.mem_cons, not_or]
        exact ⟨hmem.1, ih false hmem.2⟩
    | false =>
      by_cases ha : a = ' ' ∧ headWs t
      · simp only [collapseAux, if_pos ha, List.mem_cons, not_or]
        exact ⟨hc, ih true hmem.2⟩
      · simp only [collapseAux, if_neg ha, List.mem_cons, not_or]
        exact ⟨hmem.1, ih false hmem.2⟩

theorem pipeSub_eq_self {l : List Char} (h : '|' ∉ l) : pipeSub l = l := by
  induction l with
  | nil => rfl
  | cons c t ih =>
    simp only [List.mem_cons, not_or] at h
    cases t with
    | nil => rfl
    | cons d t' =>
      cases t' with
      | nil => rfl
      | cons e t'' =>
        have hd : ¬(c = ' ' ∧ d = '|' ∧ e = ' ') := by
          rintro ⟨-, rfl, -⟩
          exact h.2 (List.mem_cons_self _ _)
        rw [pipeSub, if_neg hd, ih h.2]

theorem nlSub_eq_self {l : List Char} (h : '\n' ∉ l) : nlSub l = l := by
  induction l with
  | nil => rfl
  | cons c t ih =>
    simp only [List.mem_cons, not_or] at h
    rw [nlSub, if_neg (fun hh => h.1 hh.symm), ih h.2]

theorem bangSub_eq_self {l : List Char} (h : '!' ∉ l) : bangSub l = l := by
  induction l with
  | nil => rfl
  | cons c t ih =>
    simp only [List.mem_cons, not_or] at h
    rw [bangSub, if_neg (fun hh => h.1 hh.symm), ih h.2]

theorem subs_data_eq_collapse {s : String} (h : noSpecials s) :
    (process_wolfram_subs s).data = collapse s.data := by
  obtain ⟨h1, h2, h3⟩ := h
  have c1 : '|' ∉ collapse s.data := not_mem_collapseAux (by decide) _ _ h1
  have c2 : '\n' ∉ collapse s.data := not_mem_collapseAux (by decide) _ _ h2
  have c3 : '!' ∉ collapse s.data := not_mem_collapseAux (by decide) _ _ h3
  show bangSub (nlSub (pipeSub (collapse s.data))) = collapse s.data
  rw [pipeSub_eq_self c1, nlSub_eq_self c2, bangSub_eq_self c3]

theorem noSpecials_of_subset {s t : String} (hsub : s.data ⊆ t.data) (h : noSpecials t) :
    noSpecials s :=
  ⟨fun hc => h.1 (hsub hc), fun hc => h.2.1 (hsub hc), fun hc => h.2.2 (hsub hc)⟩

theorem noSpecials_subs {s : String} (h : noSpecials s) :
    noSpecials (process_wolfram_subs s) := by
  refine ⟨?_, ?_, ?_⟩ <;> rw [subs_data_eq_collapse h]
  · exact not_mem_collapseAux (by decide) _ _ h.1
  · exact not_mem_collapseAux (by decide) _ _ h.2.1
  · exact not_mem_collapseAux (by decide) _ _ h.2.2

theorem subs_eq_self {s : String} (hnc : noCollapse s.data = true) (h : noSpecials s) :
    process_wolfram_subs s = s := by
  apply String.ext
  rw [subs_data_eq_collapse h, collapse_eq_self hnc]

theorem subs_subs {s : String} (h : noSpecials s) :
    process_wolfram_subs (process_wolfram_subs s) = process_wolfram_subs s := by
  refine subs_eq_self ?_ (noSpecials_subs h)
  rw [subs_data_eq_collapse h]
  exact noCollapse_collapse s.data

theorem string_data_append (s t : String) : (s ++ t).data = s.data ++ t.data := rfl

theorem head?_eq_some_cons {l : List Char} {a : Char} (h : l.head? = some a) :
    l = a :: l.tail := by
  cases l with
  | nil => cases h
  | cons x xs =>
    injection h with h'
    rw [h']
    rfl

theorem mem_range_reverse {i n : Nat} (h : i < n) : i ∈ (List.range n).reverse :=
  List.mem_reverse.mpr (List.mem_range.mpr h)

theorem matchMiddle_complete (S Q : List Char) (v : String) (hv : v ∈ regex1_verbs)
    (hS : '\n' ∉ S) : (matchMiddle (S ++ (' ' :: (v.data ++ (' ' :: Q))))).isSome := by
  set cs := S ++ (' ' :: (v.data ++ (' ' :: Q))) with hcs
  have hlen : S.length < cs.length + 1 := by
    rw [hcs]
    simp only [List.length_append, List.length_cons]
    omega
  have htake : cs.take S.length = S := by
    rw [hcs]
    exact List.take_left S (' ' :: (v.data ++ (' ' :: Q)))
  have hdrop : cs.drop S.length = ' ' :: (v.data ++ (' ' :: Q)) := by
    rw [hcs]
    exact List.drop_left S (' ' :: (v.data ++ (' ' :: Q)))
  have hpre : ((v.data ++ [' ']).isPrefixOf ((cs.drop S.length).tail)) = true := by
    rw [hdrop]
    show (v.data ++ [' ']).isPrefixOf (v.data ++ (' ' :: Q)) = true
    rw [prefixOf_equiv]
    have hassoc : v.data ++ (' ' :: Q) = (v.data ++ [' ']) ++ Q := by simp
    rw [hassoc]
    exact List.prefix_append _ _
  have hfv : tryVerb1 cs S.length v = some (⟨cs.take S.length⟩, v,
      ⟨(((cs.drop S.length).tail).drop (v.data.length + 1)).takeWhile (fun c => c != '\n')⟩) := by
    rw [tryVerb1, if_pos hpre]
  have hq : ∃ b, tryQ1 cs S.length = some b := by
    rw [tryQ1, htake, if_neg hS, hdrop]
    rw [if_pos (by rw [List.head?_cons])]
    exact Option.isSome_iff_exists.mp (findSome?_isSome_of_mem hv hfv)
  obtain ⟨b, hb⟩ := hq
  rw [matchMiddle]
  exact findSome?_isSome_of_mem (mem_range_reverse hlen) hb

theorem matchMiddle_sound {cs : List Char} {s v q : String} (hnl : '\n' ∉ cs)
    (h : matchMiddle cs = some (s, v, q)) :
    cs = s.data ++ (' ' :: (v.data ++ (' ' :: q.data))) ∧ v ∈ regex1_verbs := by
  rw [matchMiddle] at h
  obtain ⟨j, hj, hfj⟩ := List.exists_of_findSome?_eq_some h
  rw [tryQ1] at hfj
  split_ifs at hfj with h1 h2
  obtain ⟨v', hv', hfv⟩ := List.exists_of_findSome?_eq_some hfj
  rw [tryVerb1] at hfv
  split_ifs at hfv with hpre
  simp only [Option.some.injEq, Prod.mk.injEq] at hfv
  obtain ⟨hs, hv2, hq⟩ := hfv
  subst hv2
  have hcons : cs.drop j = ' ' :: (cs.drop j).tail := head?_eq_some_cons h2
  obtain ⟨r, hr⟩ : ∃ r, (cs.drop j).tail = (v'.data ++ [' ']) ++ r := by
    rcases (prefixOf_equiv _ _).mp hpre with ⟨r, hr⟩
    exact ⟨r, hr.symm⟩
  have hrdrop : ((cs.drop j).tail).drop (v'.data.length + 1) = r := by
    rw [hr]
    have hlv : (v'.data ++ [' ']).length = v'.data.length + 1 := by simp
    rw [← hlv]
    exact List.drop_left _ _
  have hnr : '\n' ∉ r := by
    intro hmem
    apply hnl
    apply List.mem_of_mem_drop (n := j)
    apply List.mem_of_mem_tail
    rw [hr]
    simp [hmem]
  have hqdata : q.data = r := by
    rw [← hq]
    show (((cs.drop j).tail).drop (v'.data.length + 1)).takeWhile (fun c => c != '\n') = r
    rw [hrdrop]
    exact takeWhile_ne_eq_self hnr
  refine ⟨?_, hv'⟩
  have hsplit : cs = cs.take j ++ (' ' :: ((v'.data ++ [' ']) ++ r)) := by
    rw [← hr, ← hcons]
    exact (List.take_append_drop j cs).symm
  rw [hsplit, ← hs, hqdata]
  simp

theorem match1_complete (p w s v q : String) (hw : w ∈ regex1_words) (hv : v ∈ regex1_verbs)
    (hnl : '\n' ∉ (p ++ w ++ " " ++ s ++ " " ++ v ++ " " ++ q).data) :
    (match1 (p ++ w ++ " " ++ s ++ " " ++ v ++ " " ++ q).data).isSome := by
  set cs := (p ++ w ++ " " ++ s ++ " " ++ v ++ " " ++ q).data with hcs
  set M := s.data ++ (' ' :: (v.data ++ (' ' :: q.data))) with hM
  have hdata : cs = p.data ++ ((w.data ++ [' ']) ++ M) := by
    rw [hcs, hM]
    simp [string_data_append, List.append_assoc]
  have hlen : p.data.length < cs.length + 1 := by
    rw [hdata]
    simp only [List.length_append, List.length_cons]
    omega
  have htake : cs.take p.data.length = p.data := by
    rw [hdata]
    exact List.take_left p.data _
  have hdrop : cs.drop p.data.length = (w.data ++ [' ']) ++ M := by
    rw [hdata]
    exact List.drop_left p.data _
  have hnp : '\n' ∉ cs.take p.data.length := fun hmem => hnl (List.mem_of_mem_take hmem)
  have hns : '\n' ∉ s.data := by
    intro hmem
    apply hnl
    rw [hdata, hM]
    simp [hmem]
  have hpre : ((w.data ++ [' ']).isPrefixOf (cs.drop p.data.length)) = true := by
    rw [hdrop, prefixOf_equiv]
    exact List.prefix_append _ _
  have hmid : ((cs.drop p.data.length).drop (w.data.length + 1)) = M := by
    rw [hdrop]
    have hlw : (w.data ++ [' ']).length = w.data.length + 1 := by simp
    rw [show w.data.length + 1 = (w.data ++ [' ']).length from hlw.symm]
    exact List.drop_left _ _
  have hmm : (matchMiddle ((cs.drop p.data.length).drop (w.data.length + 1))).isSome := by
    rw [hmid, hM]
    exact matchMiddle_complete s.data q.data v hv hns
  obtain ⟨x, hx⟩ := Option.isSome_iff_exists.mp hmm
  have hfw : tryWordMid1 cs p.data.length w = some (w, x.1, x.2.1, x.2.2) := by
    rw [tryWordMid1, if_pos hpre, hx]
    rfl
  have htry : ∃ b, tryWord1 cs p.data.length = some b := by
    rw [tryWord1, if_neg hnp]
    exact Option.isSome_iff_exists.mp (findSome?_isSome_of_mem hw hfw)
  obtain ⟨b, hb⟩ := htry
  rw [match1]
  exact findSome?_isSome_of_mem (mem_range_reverse hlen) hb

theorem match1_sound {cs : List Char} {w s v q : String} (hnl : '\n' ∉ cs)
    (h : match1 cs = some (w, s, v, q)) :
    ∃ pd : List Char,
      cs = pd ++ (w.data ++ (' ' :: (s.data ++ (' ' :: (v.data ++ (' ' :: q.data))))))
      ∧ w ∈ regex1_words ∧ v ∈ regex1_verbs := by
  rw [match1] at h
  obtain ⟨i, hi, hfi⟩ := List.exists_of_findSome?_eq_some h
  rw [tryWord1] at hfi
  split_ifs at hfi with h1
  obtain ⟨w', hw', hfw⟩ := List.exists_of_findSome?_eq_some hfi
  rw [tryWordMid1] at hfw
  split_ifs at hfw with hpre
  obtain ⟨x, hx, hgx⟩ := Option.map_eq_some'.mp hfw
  simp only [Prod.mk.injEq] at hgx
  obtain ⟨hw2, hs2, hv2, hq2⟩ := hgx
  have hnmid : '\n' ∉ (cs.drop i).drop (w'.data.length + 1) := by
    intro hmem
    exact hnl (List.mem_of_mem_drop (List.mem_of_mem_drop hmem))
  have hx' : matchMiddle ((cs.drop i).drop (w'.data.length + 1)) = some (x.1, x.2.1, x.2.2) := by
    rw [hx]
  obtain ⟨hmid, hvmem⟩ := matchMiddle_sound hnmid hx'
  obtain ⟨r, hr⟩ : ∃ r, cs.drop i = (w'.data ++ [' ']) ++ r := by
    rcases (prefixOf_equiv _ _).mp hpre with ⟨r, hr⟩
    exact ⟨r, hr.symm⟩
  have hrdrop : (cs.drop i).drop (w'.data.length + 1) = r := by
    rw [hr]
    have hlw : (w'.data ++ [' ']).length = w'.data.length + 1 := by simp
    rw [show w'.data.length + 1 = (w'.data ++ [' ']).length from hlw.symm]
    exact List.drop_left _ _
  refine ⟨cs.take i, ?_, hw2 ▸ hw', hv2 ▸ hvmem⟩
  have hrM : r = x.1.data ++ (' ' :: (x.2.1.data ++ (' ' :: x.2.2.data))) := by
    rw [← hrdrop, hmid]
  have hsplit : cs = cs.take i ++ ((w'.data ++ [' ']) ++ r) := by
    rw [← hr]
    exact (List.take_append_drop i cs).symm
  rw [hrM] at hsplit
  rw [hw2, hs2, hv2, hq2] at hsplit
  exact hsplit.trans (by simp [List.append_assoc])

theorem firstTruthyPid_append {pods : List Pod} {l₁ l₂ : List String}
    (h : ∀ p ∈ l₁, find_pod_id pods p = none ∨ find_pod_id pods p = some "") :
    firstTruthyPid (l₁ ++ l₂) pods = firstTruthyPid l₂ pods := by
  induction l₁ with
  | nil => rfl
  | cons p t ih =>
    rcases h p (List.mem_cons_self p t) with hn | he
    · rw [List.cons_append]
      simp only [firstTruthyPid, hn]
      exact ih fun p' hp' => h p' (List.mem_cons_of_mem p hp')
    · rw [List.cons_append]
      simp only [firstTruthyPid, he, if_pos rfl]
      exact ih fun p' hp' => h p' (List.mem_cons_of_mem p hp')

theorem firstTruthyPid_eq_none {pods : List Pod} {l : List String}
    (h : ∀ p ∈ l, find_pod_id pods p = none) : firstTruthyPid l pods = none := by
  induction l with
  | nil => rfl
  | cons p t ih =>
    rw [firstTruthyPid, h p (List.mem_cons_self p t)]
    exact ih fun p' hp' => h p' (List.mem_cons_of_mem p hp')

theorem query_ne_empty (w v q : String) : w ++ " " ++ v ++ " " ++ q ≠ "" := by
  intro h
  have h2 : ' ' ∈ (w ++ " " ++ v ++ " " ++ q).data := by simp [string_data_append]
  rw [h] at h2
  simp at h2

theorem buildParams_isSome (fl : Option String) (coord : Option (String × String))
    (df su : Option String) (h : ¬(fl = some "true" ∧ coord = none)) :
    ∃ ps, buildParams fl coord df su = some ps := by
  rw [buildParams.eq_def]
  by_cases hfl : fl = some "true"
  · cases coord with
    | none => exact absurd ⟨hfl, rfl⟩ h
    | some c =>
      rw [if_pos hfl]
      exact ⟨_, rfl⟩
  · rw [if_neg hfl]
    exact ⟨_, rfl⟩

theorem get_sources_state (st : SkillState) : (handle_get_sources st).state = st := by
  rw [handle_get_sources]
  cases st.last_query with
  | none => rfl
  | some q =>
    by_cases hq : q = "" <;> simp [hq]

theorem handle_fallback_state_cases (env : FallbackEnv) (st : SkillState) :
    (handle_fallback env st).state = st ∨
    ∃ q a, (handle_fallback env st).state = ⟨some q, some a⟩
      ∧ (handle_fallback env st).result = .handled
      ∧ (handle_fallback env st).spoken = some a
      ∧ ∃ pq : ParsedQuestion, q = pq.questionWord ++ " " ++ pq.questionVerb ++ " " ++ pq.query := by
  cases hp : parse (env.norm env.utterance) with
  | none => left; simp [handle_fallback, hp]
  | some pq =>
    cases hps : buildParams env.forward_location env.coordinate env.date_format
        env.system_unit with
    | none => left; simp [handle_fallback, hp, hps]
    | some ps =>
      cases hapi : env.api (pq.questionWord ++ " " ++ pq.questionVerb ++ " " ++ pq.query) ps with
      | httpError status => left; simp [handle_fallback, hp, hps, hapi]
      | exn => left; simp [handle_fallback, hp, hps, hapi]
      | ok res =>
        cases hg : get_result res with
        | none => left; simp [handle_fallback, hp, hps, hapi, hg]
        | some r =>
          by_cases hr : r = ""
          · left; simp [handle_fallback, hp, hps, hapi, hg, hr]
          · right
            refine ⟨pq.questionWord ++ " " ++ pq.questionVerb ++ " " ++ pq.query,
              process_wolfram_string env.listPattern r, ?_, ?_, ?_, pq, rfl⟩ <;>
              simp [handle_fallback, hp, hps, hapi, hg, hr]

theorem reachable_inv {st : SkillState} (h : Reachable st) :
    (st.last_answer.isSome → st.last_query.isSome)
    ∧ (∀ q, st.last_query = some q → q ≠ "") := by
  induction h with
  | init => exact ⟨by simp, by simp⟩
  | fallback env st' hr ih =>
    rcases handle_fallback_state_cases env st' with hcase | ⟨q, a, hstate, -, -, pq, hq⟩
    · rw [hcase]; exact ih
    · rw [hstate]
      refine ⟨by simp, ?_⟩
      intro q' hq'
      injection hq' with hq''
      rw [← hq'', hq]
      exact query_ne_empty _ _ _
  | sources st' hr ih =>
    rw [get_sources_state st']
    exact ih

end WolframSkill

/-! ## Claim theorems -/

namespace WolframSkill

/-- Claim C1, counterexample: an HTTP error with status 500 is an
exception other than a 401 HTTP error, yet handle_fallback reports the
utterance as handled (True) rather than not handled, and emits no
pairing event.  The claim's second half is therefore false as stated. -/
theorem handle_fallback_non401_cex :
    (handle_fallback (mkEnv "what a is b" fun _ _ => .httpError 500) ⟨none, none⟩).result
      = .handled
    ∧ HandleResult.handled ≠ HandleResult.notHandled
    ∧ (handle_fallback (mkEnv "what a is b" fun _ _ => .httpError 500) ⟨none, none⟩).emitted_not_paired
      = false := by
  decide

/-- Claim C1, amended: when the utterance parses and the coordinate
lookup cannot fail, a 401 HTTP error from the knowledge-API call makes
handle_fallback emit mycroft.not.paired and return True; an HTTP error
with any other status also returns True but emits nothing; any non-HTTP
exception is logged and returns False.  No exception escapes on any of
these paths. -/
theorem handle_fallback_error_policy (env : FallbackEnv) (st : SkillState)
    (hp : (parse (env.norm env.utterance)).isSome)
    (hloc : ¬(env.forward_location = some "true" ∧ env.coordinate = none)) :
    ((∀ a b, env.api a b = .httpError 401) →
      (handle_fallback env st).result = .handled
      ∧ (handle_fallback env st).emitted_not_paired = true)
    ∧ (∀ c, c ≠ 401 → (∀ a b, env.api a b = .httpError c) →
      (handle_fallback env st).result = .handled
      ∧ (handle_fallback env st).emitted_not_paired = false)
    ∧ ((∀ a b, env.api a b = .exn) →
      (handle_fallback env st).result = .notHandled
      ∧ (handle_fallback env st).emitted_not_paired = false) := by
  obtain ⟨pq, hpq⟩ := Option.isSome_iff_exists.mp hp
  obtain ⟨ps, hps⟩ := buildParams_isSome env.forward_location env.coordinate
    env.date_format env.system_unit hloc
  refine ⟨?_, ?_, ?_⟩
  · intro hapi
    constructor <;> simp [handle_fallback, hpq, hps, hapi]
  · intro c hc hapi
    constructor
    · simp [handle_fallback, hpq, hps, hapi]
    · simp only [handle_fallback, hpq, hps, hapi]
      simpa using hc
  · intro hapi
    constructor <;> simp [handle_fallback, hpq, hps, hapi]

/-- Claim C1, witness: the amended theorem at a concrete environment
whose knowledge-API call raises a 401 HTTP error. -/
theorem handle_fallback_error_policy_witness :
    (handle_fallback (mkEnv "what a is b" fun _ _ => .httpError 401) ⟨none, none⟩).result
      = .handled
    ∧ (handle_fallback (mkEnv "what a is b" fun _ _ => .httpError 401) ⟨none, none⟩).emitted_not_paired
      = true :=
  (handle_fallback_error_policy (mkEnv "what a is b" fun _ _ => .httpError 401) ⟨none, none⟩
    (by decide) (by decide)).1 (fun _ _ => rfl)

/-- Claim C2: the code contradicts the claim.  When the parsed
utterance reaches the API and extraction yields no result, the handler
does not return False: it evaluates "len(others)" where the name others
is undefined anywhere in the module, so a NameError escapes
handle_fallback (the line sits outside the try/except).  The embedded
handler reports the escaping exception as HandleResult.raised on the
concrete failing input. -/
theorem handle_fallback_no_result_raises :
    (handle_fallback (mkEnv "what a is b" fun _ _ => .ok ⟨[], []⟩) ⟨none, none⟩).result
      = .raised := by
  decide

/-- Claim C3, counterexample: with no primary result, a pod whose id
contains the priority id "Value" but whose text is empty is skipped by
the Python truthiness test, and extraction returns the position-200 pod
text "HELLO" instead of the first 5 characters of the matched (empty)
text. -/
theorem get_result_empty_text_cex :
    (⟨[], [⟨"Value", "", "100"⟩, ⟨"Result", "HELLO", "200"⟩]⟩ : WAResponse).results = []
    ∧ find_pod_id [⟨"Value", "", "100"⟩, ⟨"Result", "HELLO", "200"⟩] "Value" = some ""
    ∧ "Value" ∈ PIDS
    ∧ get_result ⟨[], [⟨"Value", "", "100"⟩, ⟨"Result", "HELLO", "200"⟩]⟩ = some "HELLO"
    ∧ some "HELLO" ≠ some (String.take "" 5) := by
  decide

/-- Claim C3, amended: with no primary result, if pid is the first
priority id whose pod lookup is truthy (all earlier ids find nothing or
an empty text) and its matched pod text s is non-empty, get_result
returns exactly the first 5 characters of s (the whole of s when it is
shorter than 5). -/
theorem get_result_priority_take5 (res : WAResponse) (l₁ l₂ : List String) (pid s : String)
    (hres : res.results = [])
    (hsplit : PIDS = l₁ ++ pid :: l₂)
    (hbefore : ∀ p ∈ l₁, find_pod_id res.pods p = none ∨ find_pod_id res.pods p = some "")
    (hfind : find_pod_id res.pods pid = some s) (hs : s ≠ "") :
    get_result res = some (s.take 5) := by
  obtain ⟨results, pods⟩ := res
  simp only at hres hbefore hfind
  subst hres
  have hkey : firstTruthyPid PIDS pods = some s := by
    rw [hsplit, firstTruthyPid_append hbefore]
    simp only [firstTruthyPid, hfind, if_neg hs]
  show get_result ⟨[], pods⟩ = some (s.take 5)
  rw [get_result.eq_def]
  simp only [hkey]

/-- Claim C3, witness: the amended theorem at a concrete response whose
first truthy priority match is the Definition pod with text "delta". -/
theorem get_result_priority_take5_witness :
    get_result ⟨[], [⟨"Definition", "delta", ""⟩]⟩ = some (String.take "delta" 5) :=
  get_result_priority_take5 ⟨[], [⟨"Definition", "delta", ""⟩]⟩
    ["Value", "NotableFacts:PeopleData", "BasicInformation:PeopleData"]
    ["DecimalApproximation"] "Definition" "delta" rfl rfl (by decide) (by decide) (by decide)

/-- Claim C4: with no primary result, the PIDS priority list is scanned
in its fixed order, so for pods [Definition d, Value v] the Value pod
wins irrespective of pod order; and when no priority id matches any
pod, extraction falls back to the pod at position "200". -/
theorem get_result_priority_order :
    get_result ⟨[], [⟨"Definition", "d", "100"⟩, ⟨"Value", "v", "200"⟩]⟩ = some "v"
    ∧ ∀ res : WAResponse, res.results = [] →
        (∀ pid ∈ PIDS, find_pod_id res.pods pid = none) →
        get_result res = find_num res.pods "200" := by
  constructor
  · decide
  · intro res hres hall
    obtain ⟨results, pods⟩ := res
    simp only at hres hall
    subst hres
    show get_result ⟨[], pods⟩ = find_num pods "200"
    rw [get_result.eq_def]
    simp only [firstTruthyPid_eq_none hall]

/-- Claim C4, witness: the fallback clause of the theorem at a concrete
response with a single pod at position "200" matching no priority id. -/
theorem get_result_priority_order_witness :
    get_result ⟨[], [⟨"Pos", "p", "200"⟩]⟩ = find_num [⟨"Pos", "p", "200"⟩] "200" :=
  get_result_priority_order.2 ⟨[], [⟨"Pos", "p", "200"⟩]⟩ rfl (by decide)

/-- Claim C5: every utterance that decomposes as prefix, question word,
subject, copula and predicate (newline-free) is matched by the first
regex, and parse returns a non-null result whose question word and verb
are the matched tokens and whose query is the matched subject, one
space, and the matched predicate, in that order. -/
theorem parse_regex1_spec (u p w s v q : String)
    (hu : u = p ++ w ++ " " ++ s ++ " " ++ v ++ " " ++ q)
    (hw : w ∈ regex1_words) (hv : v ∈ regex1_verbs) (hnl : '\n' ∉ u.data) :
    ∃ p' w' s' v' q' : String,
      u = p' ++ w' ++ " " ++ s' ++ " " ++ v' ++ " " ++ q'
      ∧ w' ∈ regex1_words ∧ v' ∈ regex1_verbs
      ∧ parse u = some ⟨w', v', s' ++ " " ++ q'⟩ := by
  subst hu
  have hsome := match1_complete p w s v q hw hv hnl
  obtain ⟨x, hx⟩ := Option.isSome_iff_exists.mp hsome
  obtain ⟨w', s', v', q'⟩ := x
  obtain ⟨pd, hdecomp, hw', hv'⟩ := match1_sound hnl hx
  refine ⟨⟨pd⟩, w', s', v', q', ?_, hw', hv', ?_⟩
  · apply String.ext
    rw [hdecomp]
    simp [string_data_append, List.append_assoc]
  · simp only [parse, hx]

/-- Claim C5, witness: the theorem at the concrete utterance
"what a is b" with prefix "", word "what", subject "a", copula "is",
predicate "b". -/
theorem parse_regex1_spec_witness :
    ∃ p' w' s' v' q' : String,
      "what a is b" = p' ++ w' ++ " " ++ s' ++ " " ++ v' ++ " " ++ q'
      ∧ w' ∈ regex1_words ∧ v' ∈ regex1_verbs
      ∧ parse "what a is b" = some ⟨w', v', s' ++ " " ++ q'⟩ :=
  parse_regex1_spec "what a is b" "" "what" "a" "is" "b" (by decide) (by decide) (by decide)
    (by decide)

/-- Claim C6: the substitutions are applied in the fixed source order
(whitespace-run collapse, then pipe separators, then newlines, then
exclamation marks), and on the input "A | B\nC!" the stage before the
list pattern produces a string containing "A, B, C,factorial". -/
theorem process_wolfram_subs_contains :
    ("A, B, C,factorial").data <:+: (process_wolfram_subs "A | B\nC!").data := by
  decide

/-- Claim C7, counterexample: the claim fails for the modelled
list-pattern stage.  The input "a, b, c" has no pipe, newline or
exclamation character, yet with the spec-conforming pattern lpBad
(every capture is a substring of its text) cleaning twice differs from
cleaning once, because the pattern matches its own capture and shrinks
it again. -/
theorem clean_idempotent_cex :
    noSpecials "a, b, c"
    ∧ process_wolfram_string lpBad (process_wolfram_string lpBad "a, b, c")
      ≠ process_wolfram_string lpBad "a, b, c" := by
  constructor
  · decide
  · decide

/-- Claim C7, amended: for inputs with no pipe, newline or exclamation
character, the four substitution stages are idempotent, and the whole
of process_wolfram_string is idempotent provided the language list
pattern is stable on its own captures (re-applying it to a captured
group either does not match or returns the group unchanged). -/
theorem clean_idempotent (lp : ListPattern) (s : String) (hns : noSpecials s)
    (hst : lpStable lp) :
    process_wolfram_string lp (process_wolfram_string lp s) = process_wolfram_string lp s := by
  have hy_nc : noCollapse (process_wolfram_subs s).data = true := by
    rw [subs_data_eq_collapse hns]
    exact noCollapse_collapse s.data
  have hy_ns : noSpecials (process_wolfram_subs s) := noSpecials_subs hns
  cases hap : lp.apply (process_wolfram_subs s) with
  | none =>
    have h1 : process_wolfram_string lp s = process_wolfram_subs s := by
      simp only [process_wolfram_string, hap]
    rw [h1]
    simp only [process_wolfram_string, subs_subs hns, hap]
  | some d =>
    have h1 : process_wolfram_string lp s = d := by
      simp only [process_wolfram_string, hap]
    have hinf : d.data <:+: (process_wolfram_subs s).data := lp.capture_infix _ _ hap
    have hd_nc : noCollapse d.data = true := noCollapse_infix_closed hinf hy_nc
    have hd_ns : noSpecials d := noSpecials_of_subset hinf.subset hy_ns
    have hd_subs : process_wolfram_subs d = d := subs_eq_self hd_nc hd_ns
    rw [h1]
    rcases hst _ _ hap with hnone | hsame
    · simp only [process_wolfram_string, hd_subs, hnone]
    · simp only [process_wolfram_string, hd_subs, hsame]

/-- Claim C7, witness: the amended theorem at the concrete input
"a  b" with the never-matching list pattern (stable vacuously). -/
theorem clean_idempotent_witness :
    process_wolfram_string lpNone (process_wolfram_string lpNone "a  b")
      = process_wolfram_string lpNone "a  b" :=
  clean_idempotent lpNone "a  b" (by decide) (fun _ _ h => Option.noConfusion h)

/-- Claim C8: the initial state has both fields null; in every
reachable state last_answer is non-null only when last_query is; every
handle_fallback invocation either leaves the pair untouched or sets
both fields at once while reporting handled; and handle_get_sources
never modifies the pair. -/
theorem query_record_invariant :
    Reachable ⟨none, none⟩
    ∧ (∀ st : SkillState, Reachable st → st.last_answer.isSome → st.last_query.isSome)
    ∧ (∀ env st, (handle_fallback env st).state = st
        ∨ ∃ q a, (handle_fallback env st).state = ⟨some q, some a⟩
            ∧ (handle_fallback env st).result = .handled)
    ∧ (∀ st, (handle_get_sources st).state = st) := by
  refine ⟨Reachable.init, ?_, ?_, get_sources_state⟩
  · intro st h ha
    exact (reachable_inv h).1 ha
  · intro env st
    rcases handle_fallback_state_cases env st with h | ⟨q, a, h1, h2, -, -⟩
    · exact Or.inl h
    · exact Or.inr ⟨q, a, h1, h2⟩

/-- Claim C8, witness: the handle_fallback clause of the theorem at a
concrete environment whose API call fails with a generic exception. -/
theorem query_record_invariant_witness :
    (handle_fallback (mkEnv "what a is b" fun _ _ => .exn) ⟨none, none⟩).state = ⟨none, none⟩
    ∨ ∃ q a, (handle_fallback (mkEnv "what a is b" fun _ _ => .exn) ⟨none, none⟩).state
          = ⟨some q, some a⟩
        ∧ (handle_fallback (mkEnv "what a is b" fun _ _ => .exn) ⟨none, none⟩).result
          = .handled :=
  query_record_invariant.2.2.1 (mkEnv "what a is b" fun _ _ => .exn) ⟨none, none⟩

/-- Claim C9: when a reachable state records a last_query/last_answer
pair, handle_get_sources hands the email templates exactly the
recorded query, the recorded answer and the query with spaces replaced
by plus signs, and speaks the confirmation; with no recorded query it
does nothing; and whenever handle_fallback records a pair, the recorded
answer is exactly the string it speaks. -/
theorem handle_get_sources_spec :
    (∀ st q a, Reachable st → st.last_query = some q → st.last_answer = some a →
      handle_get_sources st = ⟨some (q, some a, spacesToPlus q), true, st⟩)
    ∧ (∀ st, st.last_query = none → handle_get_sources st = ⟨none, false, st⟩)
    ∧ (∀ env st, (handle_fallback env st).state ≠ st →
        (handle_fallback env st).spoken = (handle_fallback env st).state.last_answer) := by
  refine ⟨?_, ?_, ?_⟩
  · intro st q a hr hq ha
    have hne : q ≠ "" := (reachable_inv hr).2 q hq
    simp only [handle_get_sources, hq, ha, if_neg hne]
  · intro st h
    simp only [handle_get_sources, h]
  · intro env st hne
    rcases handle_fallback_state_cases env st with h | ⟨q, a, h1, -, h3, -⟩
    · exact absurd h hne
    · rw [h3, h1]

/-- Claim C9, witness: the theorem at the concrete recorded pair
produced by a successful handling of "what a is b" answered "42". -/
theorem handle_get_sources_spec_witness :
    handle_get_sources ⟨some "what is a b", some "42"⟩
      = ⟨some ("what is a b", some "42", spacesToPlus "what is a b"), true,
         ⟨some "what is a b", some "42"⟩⟩ := by
  have hre : Reachable ⟨some "what is a b", some "42"⟩ := by
    have h := Reachable.fallback (mkEnv "what a is b" fun _ _ => .ok ⟨["42"], []⟩)
      ⟨none, none⟩ Reachable.init
    have he : (handle_fallback (mkEnv "what a is b" fun _ _ => .ok ⟨["42"], []⟩)
        ⟨none, none⟩).state = ⟨some "what is a b", some "42"⟩ := by decide
    rwa [he] at h
  exact handle_get_sources_spec.1 _ "what is a b" "42" hre rfl rfl

/-- Claim C10: whenever the parameter tuple is built (the query reaches
the API), it carries exactly one date-order assumption, Month.Day.Year
for the MDY date format and Day.Month.Year otherwise, exactly one units
parameter, nonmetric for the imperial unit system and metric otherwise,
and a latlong parameter, first in the sequence, exactly when the
forward_location setting is the string "true". -/
theorem buildParams_spec (fl : Option String) (coord : Option (String × String))
    (df su : Option String) (ps : List (String × String))
    (h : buildParams fl coord df su = some ps) :
    ps.filter (fun kv => kv.1 == "assumption")
      = [("assumption", if df = some "MDY" then "DateOrder_**Month.Day.Year--"
          else "DateOrder_**Day.Month.Year--")]
    ∧ ps.filter (fun kv => kv.1 == "units")
      = [("units", if su = some "imperial" then "nonmetric" else "metric")]
    ∧ ((∃ v, ("latlong", v) ∈ ps) ↔ fl = some "true")
    ∧ (fl = some "true" → ∃ v, ps.head? = some ("latlong", v)) := by
  have e1 : (("latlong" : String) == "assumption") = false := by decide
  have e2 : (("latlong" : String) == "units") = false := by decide
  have e3 : (("assumption" : String) == "assumption") = true := by decide
  have e4 : (("assumption" : String) == "units") = false := by decide
  have e5 : (("units" : String) == "assumption") = false := by decide
  have e6 : (("units" : String) == "units") = true := by decide
  have n1 : ("latlong" : String) ≠ "assumption" := by decide
  have n2 : ("latlong" : String) ≠ "units" := by decide
  rw [buildParams.eq_def] at h
  by_cases hfl : fl = some "true"
  · rw [if_pos hfl] at h
    cases coord with
    | none => cases h
    | some c =>
      obtain ⟨la, lo⟩ := c
      simp only [Option.some.injEq] at h
      rw [← h]
      refine ⟨?_, ?_, ?_, ?_⟩
      · simp [List.filter, e1, e3, e4]
      · simp [List.filter, e2, e5, e6]
      · constructor
        · intro _; exact hfl
        · intro _; exact ⟨la ++ "," ++ lo, by simp⟩
      · intro _; exact ⟨la ++ "," ++ lo, rfl⟩
  · rw [if_neg hfl] at h
    simp only [Option.some.injEq] at h
    rw [← h]
    refine ⟨?_, ?_, ?_, ?_⟩
    · simp [List.filter, e3, e4]
    · simp [List.filter, e5, e6]
    · constructor
      · rintro ⟨v, hv⟩
        rcases List.mem_cons.mp hv with h1 | h1
        · exact absurd (congrArg Prod.fst h1) n1
        · rcases List.mem_cons.mp h1 with h2 | h2
          · exact absurd (congrArg Prod.fst h2) n2
          · simp at h2
      · intro hfl'; exact absurd hfl' hfl
    · intro hfl'; exact absurd hfl' hfl

/-- Claim C10, witness: the theorem at a concrete configuration with
location forwarding on, default date format and default unit system. -/
theorem buildParams_spec_witness :
    ([("latlong", "1,2"), ("assumption", "DateOrder_**Day.Month.Year--"),
        ("units", "metric")].filter (fun kv => kv.1 == "assumption")
      = [("assumption", "DateOrder_**Day.Month.Year--")])
    ∧ ([("latlong", "1,2"), ("assumption", "DateOrder_**Day.Month.Year--"),
        ("units", "metric")].filter (fun kv => kv.1 == "units") = [("units", "metric")])
    ∧ ((∃ v, ("latlong", v) ∈ ([("latlong", "1,2"),
        ("assumption", "DateOrder_**Day.Month.Year--"), ("units", "metric")]
          : List (String × String))) ↔ (some "true" : Option String) = some "true")
    ∧ ((some "true" : Option String) = some "true" →
        ∃ v, ([("latlong", "1,2"), ("assumption", "DateOrder_**Day.Month.Year--"),
          ("units", "metric")] : List (String × String)).head? = some ("latlong", v)) :=
  buildParams_spec (some "true") (some ("1", "2")) none none
    [("latlong", "1,2"), ("assumption", "DateOrder_**Day.Month.Year--"), ("units", "metric")]
    (by decide)

end WolframSkill
